import Mathlib

/-!
Verification of the retrieval subsystem of the deep-flow repository
(`src/rag/mongodb.py`, `src/rag/builder.py`) against its specification.

The Python code is shallowly embedded: the external world observed by one
call into the retriever (connection outcome, embedding outcome, per-collection
vector-search results, collection listing) is a `StoreEnv`; raise points are
modelled with `Except`; the insertion-ordered `all_documents` dict is an
association list, matching CPython dict semantics.
-/

namespace DeepFlow

/-- Modelled from the spec: `Chunk` from `src/rag/retriever.py`, which is not
among the sources (spec section 3: content plus a similarity score). The score
is carried opaquely — the retriever performs no arithmetic on it — so its
floating-point carrier is modelled as `Int`. -/
structure Chunk where
  content : String
  similarity : Int
deriving DecidableEq

/-- Modelled from the spec: `Document` from `src/rag/retriever.py`, which is
not among the sources (spec section 3: id, url, title, ordered chunk list). -/
structure Document where
  id : String
  url : String
  title : String
  chunks : List Chunk
deriving DecidableEq

/-- Modelled from the spec: `Resource` from `src/rag/retriever.py`, which is
not among the sources (spec section 3: uri, title, description). -/
structure Resource where
  uri : String
  title : String
  description : String
deriving DecidableEq

/-- One record returned by a per-collection `$vectorSearch` aggregation in
`query_relevant_documents` (src/rag/mongodb.py), after the `$project` stage
and the Python-side `res.get(field, default)` reads: `id` is
`str(res.get("_id"))`, `content` is `res.get(self.content_field, "")`,
`title` is `res.get("title", "Untitled")`, `url` is `res.get("url", "")`,
and `score` is `res.get("score", 0.0)` (carried opaquely, modelled as `Int`). -/
structure Record where
  id : String
  content : String
  title : String
  url : String
  score : Int
deriving DecidableEq

/-- External world observed by one call into `MongoDBRetriever`:
`connect_ok` is whether `_connect` succeeds, `embed_ok` whether
`_get_embedding` succeeds, `search c` the records returned by the
`$vectorSearch` aggregation on collection `c` (`none` = the aggregate call
raised), and `collection_names` the result of `list_collection_names`
(`none` = it raised). The query string only feeds the embedding, which this
environment abstracts, so the records are already those for the query at hand. -/
structure StoreEnv where
  connect_ok : Bool
  embed_ok : Bool
  search : String → Option (List Record)
  collection_names : Option (List String)

/-- Model of Python `str.replace(old, new)` on character lists: all
non-overlapping occurrences are replaced left to right. The `fuel` argument
only bounds the recursion depth and is instantiated with the haystack
length, which suffices because every step consumes at least one character
(`old` is nonempty at the use site). -/
def pyReplaceAux (old new : List Char) : Nat → List Char → List Char
  | _, [] => []
  | 0, s => s
  | Nat.succ fuel, c :: rest =>
      if old.isPrefixOf (c :: rest) then
        new ++ pyReplaceAux old new fuel (List.drop old.length (c :: rest))
      else
        c :: pyReplaceAux old new fuel rest

/-- Model of Python `str.replace(old, new)`. -/
def pyReplace (s old new : String) : String :=
  ⟨pyReplaceAux old.data new.data s.data.length s.data⟩

/-- Model of Python `str.split(sep)` for a one-character separator: Python's
split with an explicit separator, so `"".split("/") == [""]` and empty
segments are kept. -/
def pySplitChar (sep : Char) : List Char → List (List Char)
  | [] => [[]]
  | c :: rest =>
      match pySplitChar sep rest with
      | [] => [[]]
      | h :: t => if c = sep then [] :: h :: t else (c :: h) :: t

/-- Parsing of a resource URI in `query_relevant_documents`
(src/rag/mongodb.py, line 104):
`parts = resource.uri.replace("mongodb://", "").split("/")`. -/
def uriParts (uri : String) : List String :=
  (pySplitChar '/' (pyReplace uri "mongodb://" "").data).map fun cs => ⟨cs⟩

/-- Loop body of the resource-resolution loop of `query_relevant_documents`
(src/rag/mongodb.py, lines 95-110): strip the scheme with
`resource.uri.replace("mongodb://", "")`, split on `"/"`, and append
`parts[1]` when there are at least two parts (the surrounding
`try/except: pass` cannot fire — every operation here is total). -/
def resolveStep (acc : List String) (resource : Resource) : List String :=
  let parts := uriParts resource.uri
  if 2 ≤ parts.length then acc ++ [parts.getD 1 ""] else acc

/-- Resolution of `resources` to the `collections_to_query` list in
`query_relevant_documents` (src/rag/mongodb.py, lines 94-113): fold the
per-resource parsing step, then fall back to the configured default
collection when nothing was collected (`if resources:` over `None` or `[]`
and folding over the empty list collect nothing alike). -/
def resolveCollections (collection_name : String)
    (resources : Option (List Resource)) : List String :=
  let collections_to_query : List String :=
    match resources with
    | none => []
    | some rs => rs.foldl resolveStep []
  if collections_to_query.isEmpty then [collection_name] else collections_to_query

/-- Model of `set(collections_to_query)` in the fan-out loop header
(src/rag/mongodb.py, line 117). Iteration order of a Python set is
unspecified; it is modelled as first-occurrence order. The properties proved
below do not depend on this order. -/
def pySet (l : List String) : List String :=
  l.foldl (fun acc x => if x ∈ acc then acc else acc ++ [x]) []

/-- Composite key `unique_id = f"{col_name}:{doc_id}"` of one search result
record (src/rag/mongodb.py, line 151). -/
def recordKey (col_name : String) (r : Record) : String :=
  col_name ++ ":" ++ r.id

/-- Chunk built from one search result record:
`Chunk(content=content, similarity=score)` (src/rag/mongodb.py, line 158). -/
def chunkOfRecord (r : Record) : Chunk :=
  { content := r.content, similarity := r.score }

/-- Update of a single dict entry by
`all_documents[unique_id].chunks.append(chunk)`: the entry stored under
`uid` gets the chunk appended, every other entry is untouched. -/
def appendChunk (uid : String) (c : Chunk) (p : String × Document) :
    String × Document :=
  if p.1 = uid then (p.1, { p.2 with chunks := p.2.chunks ++ [c] }) else p

/-- Processing of one search result record into `all_documents`
(src/rag/mongodb.py, lines 144-159): compute the composite key; if it is
absent insert a fresh `Document(id=unique_id, url=url, title=title, chunks=[])`;
then append `Chunk(content, score)` to the entry under the key. The dict is
an insertion-ordered association list. -/
def processRecord (col_name : String) (m : List (String × Document))
    (r : Record) : List (String × Document) :=
  let uid := recordKey col_name r
  if m.any (fun p => p.1 == uid) then
    m.map (appendChunk uid (chunkOfRecord r))
  else
    m ++ [(uid, { id := uid, url := r.url, title := r.title,
                  chunks := [chunkOfRecord r] })]

/-- Per-collection fan-out loop of `query_relevant_documents`
(src/rag/mongodb.py, lines 117-164): for each collection, run the
`$vectorSearch` aggregation; on an exception (`search col = none`) log and
`continue`; otherwise fold every returned record into `all_documents`. -/
def processCollections (search : String → Option (List Record))
    (cols : List String) (m : List (String × Document)) :
    List (String × Document) :=
  cols.foldl (fun m col_name =>
    match search col_name with
    | none => m
    | some results => results.foldl (processRecord col_name) m) m

/-- Dictionary lookup in the insertion-ordered association-list model of
`all_documents`: the document stored under key `k`, if any. -/
def lookupDoc (m : List (String × Document)) (k : String) : Option Document :=
  (m.find? (fun p => p.1 == k)).map Prod.snd

/-- Body of `MongoDBRetriever.query_relevant_documents` inside its outer
`try` (src/rag/mongodb.py, lines 86-166): `_connect` and `_get_embedding`
are the raise points reaching the outer handler (`Except.error`); then the
fan-out runs and `list(all_documents.values())` is returned. -/
def query_relevant_documents_inner (env : StoreEnv) (collection_name : String)
    (resources : Option (List Resource)) : Except String (List Document) :=
  if !env.connect_ok then .error "Failed to connect to MongoDB"
  else if !env.embed_ok then .error "embedding failed"
  else
    let collections_to_query := resolveCollections collection_name resources
    .ok ((processCollections env.search (pySet collections_to_query) []).map
      Prod.snd)

/-- Function `MongoDBRetriever.query_relevant_documents`
(src/rag/mongodb.py, lines 82-169): the whole body is wrapped in
`try/except`, and the handler logs and returns `[]`. -/
def query_relevant_documents (env : StoreEnv) (collection_name : String)
    (resources : Option (List Resource)) : List Document :=
  match query_relevant_documents_inner env collection_name resources with
  | .ok docs => docs
  | .error _ => []

/-- Python truthiness of an optional string: `None` and `""` are falsy. -/
def pyTruthy : Option String → Bool
  | none => false
  | some s => s != ""

/-- Semantics of Python's `needle in haystack` on strings: substring
containment, i.e. the character list of `needle` occurs contiguously inside
the character list of `haystack`. -/
def pyInStr (needle haystack : String) : Bool :=
  decide (needle.data <:+: haystack.data)

/-- Resource synthesized by `list_resources` for one valid collection
(src/rag/mongodb.py, lines 190-196). -/
def mkResource (db_name col_name : String) : Resource :=
  { uri := "mongodb://" ++ db_name ++ "/" ++ col_name
  , title := col_name
  , description := "MongoDB Collection: " ++ col_name }

/-- Loop body of the resource-building loop of `list_resources`
(src/rag/mongodb.py, lines 188-196): skip the collection when a query is
given (truthy) and is not a case-insensitive substring of the collection
name; otherwise append the synthesized Resource. -/
def listStep (db_name : String) (query : Option String)
    (resources : List Resource) (col_name : String) : List Resource :=
  if pyTruthy query && !(pyInStr ((query.getD "").toLower) col_name.toLower) then
    resources
  else
    resources ++ [mkResource db_name col_name]

/-- Function `MongoDBRetriever.list_resources` (src/rag/mongodb.py, lines
171-201). Note that `self._connect()` is invoked before the `try` block, so
a connection failure escapes to the caller (`Except.error`); a failure of
`list_collection_names` inside the `try` is caught and the accumulator —
still empty at that point — is returned. -/
def list_resources (env : StoreEnv) (db_name : String)
    (query : Option String) : Except String (List Resource) :=
  if !env.connect_ok then .error "Failed to connect to MongoDB"
  else
    .ok (match env.collection_names with
      | none => []
      | some all_collections =>
          let valid_collections := all_collections.filter
            (fun col => (col ++ "_filemeta") ∈ all_collections)
          valid_collections.foldl (listStep db_name query) [])

/-- Modelled from the spec: the sole supported value of the provider
selector (`RAGProvider.MONGODB.value`; `src/config/tools.py` is not among
the sources, spec section 4.2 names exactly one supported provider, the
vector-search one). -/
def ragProviderMongoDB : String := "mongodb"

/-- Outcome of `build_retriever` (src/rag/builder.py). -/
inductive BuildResult where
  | retriever
  | disabled
  | configError (msg : String)
deriving DecidableEq

/-- Function `build_retriever` (src/rag/builder.py, lines 8-19):
`selected` models `SELECTED_RAG_PROVIDER` and `mongodb_uri` models
`os.getenv("MONGODB_URI")`, each `none` when unset. The branch order is
that of the source: supported provider, then the URI fallback guarded by
`not SELECTED_RAG_PROVIDER`, then the `ValueError` for a truthy unsupported
provider, else `None`. -/
def build_retriever (selected : Option String) (mongodb_uri : Option String) :
    BuildResult :=
  if selected = some ragProviderMongoDB then .retriever
  else if !pyTruthy selected && pyTruthy mongodb_uri then .retriever
  else if pyTruthy selected then
    .configError ("Unsupported RAG provider: " ++ selected.getD "")
  else .disabled

/-- Mutable connection state of one `MongoDBRetriever` instance:
whether `self.client` has been assigned, and how many liveness pings have
been executed so far on this instance. -/
structure ConnState where
  clientSet : Bool
  pings : Nat
deriving DecidableEq

/-- One call to `MongoDBRetriever._connect` (src/rag/mongodb.py, lines
60-75), returning the new state and whether the call raised. `ping_ok` is
whether `self.client.admin.command("ping")` succeeds on this call.
`self.client` is assigned before the ping, and the `except` handler logs
and re-raises without clearing it; when `self.client` is already set the
body is skipped entirely. -/
def connectCall (ping_ok : Bool) (s : ConnState) : ConnState × Bool :=
  if s.clientSet then (s, false)
  else ({ clientSet := true, pings := s.pings + 1 }, !ping_ok)

/-- Iterated `_connect` calls on one retriever instance, given the outcome
each ping would have. -/
def connectRuns (outcomes : List Bool) (s : ConnState) : ConnState :=
  outcomes.foldl (fun s b => (connectCall b s).1) s

/-! ### Helper lemmas -/

theorem resolveStep_foldl (rs : List Resource) (acc : List String) :
    rs.foldl resolveStep acc =
      acc ++ (rs.filter (fun r =>
        2 ≤ (uriParts r.uri).length)).map
        (fun r => (uriParts r.uri).getD 1 "") := by
  induction rs generalizing acc with
  | nil => simp
  | cons r rest ih =>
      rw [List.foldl_cons, List.filter_cons]
      by_cases h : 2 ≤ (uriParts r.uri).length
      · rw [show resolveStep acc r
            = acc ++ [(uriParts r.uri).getD 1 ""]
            from by simp [resolveStep, h], ih]
        simp [h, List.append_assoc]
      · rw [show resolveStep acc r = acc from by simp [resolveStep, h], ih]
        simp [h]

theorem resolveCollections_some (cfg : String) (l : List Resource) :
    resolveCollections cfg (some l) =
      if ((l.filter (fun r =>
          2 ≤ (uriParts r.uri).length)).map
          (fun r => (uriParts r.uri).getD 1 "")).isEmpty
      then [cfg]
      else (l.filter (fun r =>
          2 ≤ (uriParts r.uri).length)).map
          (fun r => (uriParts r.uri).getD 1 "") := by
  have h : List.foldl resolveStep [] l
      = (l.filter (fun r =>
          2 ≤ (uriParts r.uri).length)).map
          (fun r => (uriParts r.uri).getD 1 "") := by
    simpa using resolveStep_foldl l []
  simp only [resolveCollections, h]

theorem connectCall_stable (b : Bool) (s : ConnState) (h : s.clientSet = true) :
    connectCall b s = (s, false) := by
  unfold connectCall
  simp [h]

theorem connectRuns_stable (bs : List Bool) (s : ConnState)
    (h : s.clientSet = true) : connectRuns bs s = s := by
  induction bs with
  | nil => rfl
  | cons b rest ih =>
      show connectRuns rest (connectCall b s).1 = s
      rw [connectCall_stable b s h]
      exact ih

theorem appendChunk_fst (uid : String) (c : Chunk) (p : String × Document) :
    (appendChunk uid c p).1 = p.1 := by
  unfold appendChunk
  split <;> rfl

theorem lookupDoc_processRecord (c : String) (m : List (String × Document))
    (r : Record) (k : String) :
    lookupDoc (processRecord c m r) k =
      if k = recordKey c r then
        match lookupDoc m k with
        | some d => some { d with chunks := d.chunks ++ [chunkOfRecord r] }
        | none => some { id := k, url := r.url, title := r.title,
                         chunks := [chunkOfRecord r] }
      else lookupDoc m k := by
  have hcomp : ((fun p : String × Document => p.1 == k)
      ∘ appendChunk (recordKey c r) (chunkOfRecord r))
      = fun p : String × Document => p.1 == k := by
    funext p
    simp [Function.comp, appendChunk_fst]
  by_cases hmem : (m.any (fun p => p.1 == recordKey c r)) = true
  · rw [show processRecord c m r
        = m.map (appendChunk (recordKey c r) (chunkOfRecord r))
        from by simp [processRecord, hmem]]
    unfold lookupDoc
    rw [List.find?_map, hcomp]
    by_cases hk : k = recordKey c r
    · rw [if_pos hk]
      cases hfind : m.find? (fun p => p.1 == k) with
      | none =>
          exfalso
          obtain ⟨p, hp, hpk⟩ := List.any_eq_true.mp hmem
          rw [← hk] at hpk
          exact (List.find?_eq_none.mp hfind p hp) hpk
      | some q =>
          have hq : q.1 = recordKey c r := by
            have := List.find?_some hfind
            simp at this
            rw [← hk]
            exact this
          simp [appendChunk, hq]
    · rw [if_neg hk]
      cases hfind : m.find? (fun p => p.1 == k) with
      | none => rfl
      | some q =>
          have hq : q.1 = k := by
            have := List.find?_some hfind
            simpa using this
          have hne : ¬(q.1 = recordKey c r) := by
            rw [hq]
            exact hk
          simp [appendChunk, hne]
  · rw [show processRecord c m r
        = m ++ [(recordKey c r,
            { id := recordKey c r, url := r.url, title := r.title,
              chunks := [chunkOfRecord r] })]
        from by simp [processRecord, hmem]]
    unfold lookupDoc
    rw [List.find?_append]
    have hnone : m.find? (fun p => p.1 == recordKey c r) = none := by
      rw [List.find?_eq_none]
      intro p hp hpk
      exact hmem (List.any_eq_true.mpr ⟨p, hp, hpk⟩)
    by_cases hk : k = recordKey c r
    · rw [if_pos hk, hk, hnone]
      simp
    · have hsing : List.find? (fun p : String × Document => p.1 == k)
          [(recordKey c r,
            { id := recordKey c r, url := r.url, title := r.title,
              chunks := [chunkOfRecord r] })] = none := by
        rw [List.find?_eq_none]
        intro p hp
        simp at hp
        subst hp
        simp [Ne.symm hk]
      rw [if_neg hk, hsing]
      simp

theorem lookupDoc_foldl_records (c : String) (recs : List Record)
    (m : List (String × Document)) (k : String) :
    lookupDoc (recs.foldl (processRecord c) m) k =
      match lookupDoc m k, recs.find? (fun r => recordKey c r == k) with
      | some d, _ => some { d with chunks := d.chunks
          ++ (recs.filter (fun r => recordKey c r == k)).map chunkOfRecord }
      | none, some r0 => some (Document.mk k r0.url r0.title
          ((recs.filter (fun r => recordKey c r == k)).map chunkOfRecord))
      | none, none => none := by
  induction recs generalizing m with
  | nil =>
      cases hm : lookupDoc m k with
      | none => simp [hm]
      | some d => cases d <;> simp [hm]
  | cons r rest ih =>
      rw [List.foldl_cons, ih, lookupDoc_processRecord]
      by_cases hk : k = recordKey c r
      · have hb : (recordKey c r == k) = true := by simp [hk]
        rw [if_pos hk]
        cases hm : lookupDoc m k with
        | some d =>
            simp [hm, hb, List.find?_cons, List.filter_cons]
        | none =>
            simp [hm, hb, List.find?_cons, List.filter_cons]
      · have hb : (recordKey c r == k) = false := by
          simp [Ne.symm hk]
        rw [if_neg hk]
        rw [List.find?_cons, List.filter_cons, hb]
        simp

theorem processRecord_coherent (c : String) (m : List (String × Document))
    (r : Record) (h : ∀ p ∈ m, p.2.id = p.1) :
    ∀ p ∈ processRecord c m r, p.2.id = p.1 := by
  intro p hp
  unfold processRecord at hp
  by_cases hmem : (m.any (fun q => q.1 == recordKey c r)) = true
  · rw [if_pos hmem] at hp
    obtain ⟨q, hq, hpq⟩ := List.mem_map.mp hp
    subst hpq
    unfold appendChunk
    split
    · exact h q hq
    · exact h q hq
  · rw [if_neg hmem, List.mem_append] at hp
    rcases hp with hp | hp
    · exact h p hp
    · simp at hp
      subst hp
      rfl

theorem foldl_records_coherent (c : String) (recs : List Record)
    (m : List (String × Document)) (h : ∀ p ∈ m, p.2.id = p.1) :
    ∀ p ∈ recs.foldl (processRecord c) m, p.2.id = p.1 := by
  induction recs generalizing m with
  | nil => exact h
  | cons r rest ih =>
      rw [List.foldl_cons]
      exact ih _ (processRecord_coherent c m r h)

theorem processCollections_coherent (search : String → Option (List Record))
    (cols : List String) (m : List (String × Document))
    (h : ∀ p ∈ m, p.2.id = p.1) :
    ∀ p ∈ processCollections search cols m, p.2.id = p.1 := by
  induction cols generalizing m with
  | nil => exact h
  | cons col rest ih =>
      cases hs : search col with
      | none =>
          rw [show processCollections search (col :: rest) m
              = processCollections search rest m
              from by simp [processCollections, hs]]
          exact ih _ h
      | some recs =>
          rw [show processCollections search (col :: rest) m
              = processCollections search rest (recs.foldl (processRecord col) m)
              from by simp [processCollections, hs]]
          exact ih _ (foldl_records_coherent col recs m h)

theorem processRecord_keys_nodup (c : String) (m : List (String × Document))
    (r : Record) (h : (m.map Prod.fst).Nodup) :
    ((processRecord c m r).map Prod.fst).Nodup := by
  by_cases hmem : (m.any (fun q => q.1 == recordKey c r)) = true
  · rw [show processRecord c m r
        = m.map (appendChunk (recordKey c r) (chunkOfRecord r))
        from by simp [processRecord, hmem]]
    rw [List.map_map,
        show (Prod.fst ∘ appendChunk (recordKey c r) (chunkOfRecord r))
          = (Prod.fst : String × Document → String)
        from funext (appendChunk_fst _ _)]
    exact h
  · rw [show processRecord c m r
        = m ++ [(recordKey c r,
            { id := recordKey c r, url := r.url, title := r.title,
              chunks := [chunkOfRecord r] })]
        from by simp [processRecord, hmem]]
    have huid : recordKey c r ∉ m.map Prod.fst := by
      intro hin
      obtain ⟨p, hp, hpk⟩ := List.mem_map.mp hin
      exact hmem (List.any_eq_true.mpr ⟨p, hp, by simp [hpk]⟩)
    rw [List.map_append]
    simp only [List.nodup_append, List.map_cons, List.map_nil]
    refine ⟨h, List.nodup_singleton _, ?_⟩
    intro a ha hb
    simp at hb
    subst hb
    exact huid ha

theorem foldl_records_keys_nodup (c : String) (recs : List Record)
    (m : List (String × Document)) (h : (m.map Prod.fst).Nodup) :
    (((recs.foldl (processRecord c) m)).map Prod.fst).Nodup := by
  induction recs generalizing m with
  | nil => exact h
  | cons r rest ih =>
      rw [List.foldl_cons]
      exact ih _ (processRecord_keys_nodup c m r h)

theorem processCollections_keys_nodup (search : String → Option (List Record))
    (cols : List String) (m : List (String × Document))
    (h : (m.map Prod.fst).Nodup) :
    ((processCollections search cols m).map Prod.fst).Nodup := by
  induction cols generalizing m with
  | nil => exact h
  | cons col rest ih =>
      cases hs : search col with
      | none =>
          rw [show processCollections search (col :: rest) m
              = processCollections search rest m
              from by simp [processCollections, hs]]
          exact ih _ h
      | some recs =>
          rw [show processCollections search (col :: rest) m
              = processCollections search rest (recs.foldl (processRecord col) m)
              from by simp [processCollections, hs]]
          exact ih _ (foldl_records_keys_nodup col recs m h)

theorem lookupDoc_foldl_records_grow (c : String) (recs : List Record)
    (m : List (String × Document)) (k : String) (d : Document)
    (h : lookupDoc m k = some d) :
    lookupDoc (recs.foldl (processRecord c) m) k
      = some { d with chunks := d.chunks
          ++ (recs.filter (fun r => recordKey c r == k)).map chunkOfRecord } := by
  rw [lookupDoc_foldl_records, h]

theorem processCollections_grow (search : String → Option (List Record))
    (cols : List String) (m : List (String × Document)) (k : String)
    (d : Document) (h : lookupDoc m k = some d) :
    ∃ tail, lookupDoc (processCollections search cols m) k
      = some { d with chunks := d.chunks ++ tail } := by
  induction cols generalizing m d with
  | nil =>
      refine ⟨[], ?_⟩
      cases d with
      | mk i u t ch => simpa [processCollections] using h
  | cons col rest ih =>
      cases hs : search col with
      | none =>
          rw [show processCollections search (col :: rest) m
              = processCollections search rest m
              from by simp [processCollections, hs]]
          exact ih m d h
      | some recs =>
          rw [show processCollections search (col :: rest) m
              = processCollections search rest (recs.foldl (processRecord col) m)
              from by simp [processCollections, hs]]
          obtain ⟨tail, ht⟩ := ih (recs.foldl (processRecord col) m)
            { d with chunks := d.chunks
                ++ (recs.filter (fun r => recordKey col r == k)).map chunkOfRecord }
            (lookupDoc_foldl_records_grow col recs m k d h)
          refine ⟨(recs.filter (fun r => recordKey col r == k)).map chunkOfRecord
            ++ tail, ?_⟩
          rw [ht]
          simp [List.append_assoc]

theorem lookupDoc_mem (m : List (String × Document)) (k : String) (d : Document)
    (h : lookupDoc m k = some d) : d ∈ m.map Prod.snd := by
  unfold lookupDoc at h
  cases hf : m.find? (fun p => p.1 == k) with
  | none => rw [hf] at h; cases h
  | some p =>
      rw [hf] at h
      simp at h
      subst h
      exact List.mem_map.mpr ⟨p, List.mem_of_find?_eq_some hf, rfl⟩

theorem lookupDoc_id (m : List (String × Document)) (k : String) (d : Document)
    (hcoh : ∀ p ∈ m, p.2.id = p.1) (h : lookupDoc m k = some d) : d.id = k := by
  unfold lookupDoc at h
  cases hf : m.find? (fun p => p.1 == k) with
  | none => rw [hf] at h; cases h
  | some p =>
      rw [hf] at h
      simp at h
      subst h
      have hpk : p.1 = k := by simpa using List.find?_some hf
      rw [hcoh p (List.mem_of_find?_eq_some hf), hpk]

theorem processCollections_key_present (search : String → Option (List Record))
    (cols : List String) (m : List (String × Document)) (c : String)
    (recs : List Record) (r : Record)
    (hc : c ∈ cols) (hs : search c = some recs) (hr : r ∈ recs) :
    ∃ d, lookupDoc (processCollections search cols m) (recordKey c r) = some d
      ∧ chunkOfRecord r ∈ d.chunks := by
  induction cols generalizing m with
  | nil => cases hc
  | cons col rest ih =>
      by_cases hcol : c = col
      · subst hcol
        rw [show processCollections search (c :: rest) m
            = processCollections search rest (recs.foldl (processRecord c) m)
            from by simp [processCollections, hs]]
        have hfil : chunkOfRecord r
            ∈ (recs.filter (fun x => recordKey c x == recordKey c r)).map
              chunkOfRecord :=
          List.mem_map.mpr ⟨r, List.mem_filter.mpr ⟨hr, by simp⟩, rfl⟩
        have base : ∃ d0, lookupDoc (recs.foldl (processRecord c) m)
            (recordKey c r) = some d0 ∧ chunkOfRecord r ∈ d0.chunks := by
          rw [lookupDoc_foldl_records]
          cases hm : lookupDoc m (recordKey c r) with
          | some d =>
              exact ⟨_, rfl, List.mem_append.mpr (Or.inr hfil)⟩
          | none =>
              cases hf : recs.find? (fun x => recordKey c x == recordKey c r) with
              | none =>
                  exfalso
                  exact absurd (by simp : (recordKey c r == recordKey c r) = true)
                    (by simpa using List.find?_eq_none.mp hf r hr)
              | some r0 => exact ⟨_, rfl, hfil⟩
        obtain ⟨d0, hd0, hch⟩ := base
        obtain ⟨tail, ht⟩ := processCollections_grow search rest _ _ _ hd0
        exact ⟨_, ht, List.mem_append.mpr (Or.inl hch)⟩
      · have hcr : c ∈ rest := by
          rcases List.mem_cons.mp hc with h | h
          · exact absurd h hcol
          · exact h
        cases hs2 : search col with
        | none =>
            rw [show processCollections search (col :: rest) m
                = processCollections search rest m
                from by simp [processCollections, hs2]]
            exact ih m hcr
        | some recs2 =>
            rw [show processCollections search (col :: rest) m
                = processCollections search rest
                  (recs2.foldl (processRecord col) m)
                from by simp [processCollections, hs2]]
            exact ih _ hcr

theorem pySet_mem_aux (l : List String) (acc : List String) (x : String) :
    x ∈ l.foldl (fun acc y => if y ∈ acc then acc else acc ++ [y]) acc
      ↔ x ∈ acc ∨ x ∈ l := by
  induction l generalizing acc with
  | nil => simp
  | cons y rest ih =>
      rw [List.foldl_cons]
      by_cases hy : y ∈ acc
      · rw [if_pos hy, ih]
        simp only [List.mem_cons]
        constructor
        · rintro (h | h)
          · exact Or.inl h
          · exact Or.inr (Or.inr h)
        · rintro (h | h | h)
          · exact Or.inl h
          · subst h
            exact Or.inl hy
          · exact Or.inr h
      · rw [if_neg hy, ih]
        simp only [List.mem_append, List.mem_cons, List.mem_singleton]
        tauto

theorem pySet_mem (l : List String) (x : String) : x ∈ pySet l ↔ x ∈ l := by
  unfold pySet
  rw [pySet_mem_aux]
  simp

theorem recordKey_ne_of_col_ne (c1 c2 s : String) (h : c1 ≠ c2) :
    c1 ++ ":" ++ s ≠ c2 ++ ":" ++ s := by
  intro he
  apply h
  have hd := congrArg String.data he
  simp only [String.data_append] at hd
  have h3 : c1.data = c2.data :=
    List.append_cancel_right (List.append_cancel_right hd)
  cases c1
  cases c2
  exact congrArg String.mk h3

theorem filter_key_length_one (k : String) (p0 : String × Document)
    (hk : p0.1 = k) :
    ∀ m : List (String × Document), (m.map Prod.fst).Nodup → p0 ∈ m →
      (m.filter (fun p => p.1 == k)).length = 1 := by
  intro m
  induction m with
  | nil =>
      intro _ h
      cases h
  | cons q rest ih =>
      intro hnd hp0
      rw [List.map_cons, List.nodup_cons] at hnd
      by_cases hq : q.1 = k
      · have hrest : rest.filter (fun p => p.1 == k) = [] := by
          rw [List.filter_eq_nil_iff]
          intro p hp
          simp only [beq_iff_eq]
          intro hpk
          exact hnd.1 (by
            rw [hq, ← hpk]
            exact List.mem_map.mpr ⟨p, hp, rfl⟩)
        simp [List.filter_cons, hq, hrest]
      · have hp0' : p0 ∈ rest := by
          rcases List.mem_cons.mp hp0 with h | h
          · exfalso
            apply hq
            rw [← h]
            exact hk
          · exact h
        simp only [List.filter_cons]
        rw [if_neg (by simp [hq])]
        exact ih hnd.2 hp0'

theorem result_key_count_one (m : List (String × Document)) (k : String)
    (d : Document) (hnd : (m.map Prod.fst).Nodup)
    (hcoh : ∀ p ∈ m, p.2.id = p.1) (h : lookupDoc m k = some d) :
    ((m.map Prod.snd).filter (fun d' => d'.id == k)).length = 1 := by
  unfold lookupDoc at h
  cases hf : m.find? (fun p => p.1 == k) with
  | none =>
      rw [hf] at h
      cases h
  | some p0 =>
      have hp0 : p0 ∈ m := List.mem_of_find?_eq_some hf
      have hpk : p0.1 = k := by simpa using List.find?_some hf
      rw [List.filter_map, List.length_map,
          List.filter_congr (fun p hp => by
            show ((fun d' : Document => d'.id == k) ∘ Prod.snd) p = (p.1 == k)
            simp [Function.comp, hcoh p hp])]
      exact filter_key_length_one k p0 hpk m hnd hp0

theorem two_le_length_filter_aux {α : Type} (l : List α) (p : α → Bool)
    (i j : Nat) (hi : i < l.length) (hj : j < l.length) (hij : i < j)
    (hpi : p (l.get ⟨i, hi⟩) = true) (hpj : p (l.get ⟨j, hj⟩) = true) :
    2 ≤ (l.filter p).length := by
  have hdropj : l.get ⟨j, hj⟩ ∈ l.drop (i + 1) := by
    have h1 : l.drop j = l.get ⟨j, hj⟩ :: l.drop (j + 1) := by
      simpa using List.drop_eq_getElem_cons hj
    have h2 : (l.drop (i + 1)).drop (j - (i + 1)) = l.drop j := by
      rw [List.drop_drop]
      congr 1
      omega
    apply List.mem_of_mem_drop (n := j - (i + 1))
    rw [h2, h1]
    exact List.mem_cons_self _ _
  have hsplit : l.take i ++ l.drop i = l := List.take_append_drop i l
  have hdropi : l.drop i = l.get ⟨i, hi⟩ :: l.drop (i + 1) := by
    simpa using List.drop_eq_getElem_cons hi
  have hsum : (l.filter p).length
      = ((l.take i).filter p).length + ((l.drop i).filter p).length := by
    conv_lhs => rw [← hsplit]
    rw [List.filter_append, List.length_append]
  have h3 : (l.drop i).filter p
      = l.get ⟨i, hi⟩ :: (l.drop (i + 1)).filter p := by
    rw [hdropi, List.filter_cons, if_pos hpi]
  have hpos : 0 < ((l.drop (i + 1)).filter p).length :=
    List.length_pos_of_mem (List.mem_filter.mpr ⟨hdropj, hpj⟩)
  rw [hsum, h3]
  simp only [List.length_cons]
  omega

theorem two_le_length_filter {α : Type} (l : List α) (p : α → Bool)
    (i j : Nat) (hi : i < l.length) (hj : j < l.length) (hij : i ≠ j)
    (hpi : p (l.get ⟨i, hi⟩) = true) (hpj : p (l.get ⟨j, hj⟩) = true) :
    2 ≤ (l.filter p).length := by
  rcases Nat.lt_or_ge i j with h | h
  · exact two_le_length_filter_aux l p i j hi hj h hpi hpj
  · exact two_le_length_filter_aux l p j i hj hi
      (Nat.lt_of_le_of_ne h (Ne.symm hij)) hpj hpi

theorem listStep_foldl (db : String) (q : Option String) (cols : List String)
    (acc : List Resource) :
    cols.foldl (listStep db q) acc
      = acc ++ (cols.filter (fun col =>
          !(pyTruthy q && !(pyInStr ((q.getD "").toLower) col.toLower)))).map
          (mkResource db) := by
  induction cols generalizing acc with
  | nil => simp
  | cons col rest ih =>
      rw [List.foldl_cons, List.filter_cons]
      by_cases h : (pyTruthy q
          && !(pyInStr ((q.getD "").toLower) col.toLower)) = true
      · rw [show listStep db q acc col = acc from by simp [listStep, h], ih]
        simp [h]
      · rw [show listStep db q acc col = acc ++ [mkResource db col]
            from by simp [listStep, h], ih]
        simp [h, List.append_assoc]

/-! ### Claims -/

/-- C3: `query_relevant_documents` never propagates an exception: whenever a
step before the per-collection fan-out fails (`_connect` or `_get_embedding`
raises), the call returns the empty sequence. -/
theorem query_soft_failure (env : StoreEnv) (cfg : String)
    (resources : Option (List Resource))
    (h : env.connect_ok = false ∨ env.embed_ok = false) :
    query_relevant_documents env cfg resources = [] := by
  unfold query_relevant_documents query_relevant_documents_inner
  rcases h with h | h
  · simp [h]
  · cases hc : env.connect_ok <;> simp [h, hc]

theorem query_soft_failure_witness :
    query_relevant_documents ⟨false, true, fun _ => some [], some []⟩
      "documents" none = []
    ∧ query_relevant_documents ⟨true, false, fun _ => some [], some []⟩
      "documents" none = [] :=
  ⟨query_soft_failure _ _ _ (Or.inl rfl), query_soft_failure _ _ _ (Or.inr rfl)⟩

/-- C4 counterexample: `list_resources` does propagate an exception when the
store connection cannot be established — `self._connect()` is invoked before
the `try` block, so the failure escapes to the caller instead of yielding the
empty sequence. -/
theorem list_resources_propagates_connect_failure :
    list_resources ⟨false, true, fun _ => none, some ["papers", "papers_filemeta"]⟩
      "deep_flow" none = Except.error "Failed to connect to MongoDB" := rfl

/-- C4 (amended): once the store connection is established, `list_resources`
never propagates an exception: the call returns normally (`Except.ok`), and
when the collection listing itself fails it returns the empty sequence. -/
theorem list_resources_soft_after_connect (env1 env2 : StoreEnv) (db : String)
    (q : Option String) (h1 : env1.connect_ok = true)
    (h2 : env2.connect_ok = true) (hn : env2.collection_names = none) :
    (list_resources env1 db q).isOk = true
    ∧ list_resources env2 db q = Except.ok [] := by
  constructor
  · simp [list_resources, h1, Except.isOk, Except.toBool]
  · simp [list_resources, h2, hn]

theorem list_resources_soft_after_connect_witness :
    (list_resources ⟨true, true, fun _ => none,
        some ["papers", "papers_filemeta"]⟩ "deep_flow" none).isOk = true
    ∧ list_resources ⟨true, true, fun _ => none, none⟩ "deep_flow" none
        = Except.ok [] :=
  list_resources_soft_after_connect
    ⟨true, true, fun _ => none, some ["papers", "papers_filemeta"]⟩
    ⟨true, true, fun _ => none, none⟩ "deep_flow" none rfl rfl rfl

/-- C6: with `resources` empty, absent, or containing only resources whose
URIs yield fewer than two path segments after stripping the scheme
(malformed), the fan-out targets exactly the single default configured
collection; a malformed resource URI is skipped (filtering it out does not
change the resolution) without aborting the query; and a well-formed URI
contributes its second path segment as a target collection name. -/
theorem resolution_fallback_default (cfg : String) (rs : Option (List Resource))
    (l l2 : List Resource) (r : Resource)
    (hmal : rs = none ∨ ∃ l0, rs = some l0 ∧ ∀ r0 ∈ l0,
      (uriParts r0.uri).length < 2)
    (hr : r ∈ l)
    (hwf : 2 ≤ (uriParts r.uri).length) :
    (resolveCollections cfg rs = [cfg]
      ∧ pySet (resolveCollections cfg rs) = [cfg])
    ∧ resolveCollections cfg (some l2)
        = resolveCollections cfg (some (l2.filter (fun r0 =>
            2 ≤ (uriParts r0.uri).length)))
    ∧ (uriParts r.uri).getD 1 ""
        ∈ resolveCollections cfg (some l) := by
  refine ⟨?_, ?_, ?_⟩
  · have hres : resolveCollections cfg rs = [cfg] := by
      rcases hmal with h | ⟨l0, hl0, hall⟩
      · simp [h, resolveCollections]
      · have hfil : l0.filter (fun r0 =>
            2 ≤ (uriParts r0.uri).length) = [] := by
          rw [List.filter_eq_nil_iff]
          intro a ha
          simp only [decide_eq_true_eq, not_le]
          exact hall a ha
        rw [hl0, resolveCollections_some, hfil]
        simp
    exact ⟨hres, by simp [hres, pySet]⟩
  · rw [resolveCollections_some, resolveCollections_some, List.filter_filter]
    simp
  · rw [resolveCollections_some]
    have hmem : (uriParts r.uri).getD 1 ""
        ∈ (l.filter (fun r0 =>
          2 ≤ (uriParts r0.uri).length)).map
          (fun r0 => (uriParts r0.uri).getD 1 "") :=
      List.mem_map.mpr ⟨r, List.mem_filter.mpr ⟨hr, by simpa⟩, rfl⟩
    have hne : ¬((l.filter (fun r0 =>
        2 ≤ (uriParts r0.uri).length)).map
        (fun r0 => (uriParts r0.uri).getD 1 "")
        = []) := by
      intro hnil
      rw [hnil] at hmem
      exact List.not_mem_nil _ hmem
    rw [if_neg (by simpa [List.isEmpty_iff] using hne)]
    exact hmem

theorem resolution_fallback_default_witness :
    (resolveCollections "documents"
          (some [(⟨"mongodb://deep_flow", "t", "d"⟩ : Resource)]) = ["documents"]
      ∧ pySet (resolveCollections "documents"
          (some [(⟨"mongodb://deep_flow", "t", "d"⟩ : Resource)])) = ["documents"])
    ∧ resolveCollections "documents"
        (some [(⟨"mongodb://deep_flow/papers/f1", "t", "d"⟩ : Resource),
               ⟨"mongodb://deep_flow", "t", "d"⟩])
        = resolveCollections "documents"
            (some ([(⟨"mongodb://deep_flow/papers/f1", "t", "d"⟩ : Resource),
               ⟨"mongodb://deep_flow", "t", "d"⟩].filter (fun r0 =>
                2 ≤ (uriParts r0.uri).length)))
    ∧ (uriParts "mongodb://deep_flow/papers/f1").getD 1 ""
        ∈ resolveCollections "documents"
            (some [(⟨"mongodb://deep_flow/papers/f1", "t", "d"⟩ : Resource),
               ⟨"mongodb://deep_flow", "t", "d"⟩]) :=
  resolution_fallback_default "documents"
    (some [⟨"mongodb://deep_flow", "t", "d"⟩])
    [⟨"mongodb://deep_flow/papers/f1", "t", "d"⟩, ⟨"mongodb://deep_flow", "t", "d"⟩]
    [⟨"mongodb://deep_flow/papers/f1", "t", "d"⟩, ⟨"mongodb://deep_flow", "t", "d"⟩]
    ⟨"mongodb://deep_flow/papers/f1", "t", "d"⟩
    (Or.inr ⟨_, rfl, by decide⟩) (by decide) (by decide)

/-- C7: builder precedence — an explicitly configured unsupported provider
raises the configuration error even when a connection string is present; the
supported provider name constructs the retriever; no explicit provider with a
connection string present constructs the vector-search retriever; with
neither, the builder returns the absent value. -/
theorem build_retriever_precedence (sel uri : String) (u : Option String)
    (hsel : sel ≠ "") (hns : sel ≠ ragProviderMongoDB) (huri : uri ≠ "") :
    build_retriever (some sel) (some uri)
        = BuildResult.configError ("Unsupported RAG provider: " ++ sel)
    ∧ build_retriever (some ragProviderMongoDB) u = BuildResult.retriever
    ∧ build_retriever none (some uri) = BuildResult.retriever
    ∧ build_retriever none none = BuildResult.disabled := by
  refine ⟨?_, ?_, ?_, ?_⟩
  · simp [build_retriever, pyTruthy, hns, hsel]
  · simp [build_retriever]
  · simp [build_retriever, pyTruthy, huri]
  · simp [build_retriever, pyTruthy]

theorem build_retriever_precedence_witness :
    build_retriever (some "milvus") (some "mongodb://u:p@h/db")
        = BuildResult.configError ("Unsupported RAG provider: " ++ "milvus")
    ∧ build_retriever (some ragProviderMongoDB) none = BuildResult.retriever
    ∧ build_retriever none (some "mongodb://u:p@h/db") = BuildResult.retriever
    ∧ build_retriever none none = BuildResult.disabled :=
  build_retriever_precedence "milvus" "mongodb://u:p@h/db" none
    (by decide) (by decide) (by decide)

/-- C10: `_connect` is not atomic on error — the client handle is assigned
before the liveness ping, so a failing ping on the first call leaves the
handle set and raises; every subsequent call returns without raising and
without pinging again; over any call sequence on one instance the ping runs
at most once. -/
theorem connect_not_atomic (b : Bool) (s : ConnState) (bs : List Bool)
    (h : s.clientSet = true) :
    ((connectCall false ⟨false, 0⟩).1.clientSet = true
      ∧ (connectCall false ⟨false, 0⟩).2 = true)
    ∧ connectCall b s = (s, false)
    ∧ (connectRuns bs ⟨false, 0⟩).pings ≤ 1 := by
  refine ⟨⟨rfl, rfl⟩, connectCall_stable b s h, ?_⟩
  cases bs with
  | nil => simp [connectRuns]
  | cons b0 rest =>
      rw [show connectRuns (b0 :: rest) ⟨false, 0⟩ = connectRuns rest ⟨true, 1⟩
            from rfl,
          connectRuns_stable rest ⟨true, 1⟩ rfl]

theorem query_eval (env : StoreEnv) (cfg : String)
    (res : Option (List Resource)) (hconn : env.connect_ok = true)
    (hembed : env.embed_ok = true) :
    query_relevant_documents env cfg res
      = (processCollections env.search (pySet (resolveCollections cfg res))
          []).map Prod.snd := by
  unfold query_relevant_documents query_relevant_documents_inner
  simp [hconn, hembed]

/-- C9: when a record's composite key already exists in `all_documents`,
processing that record only appends one Chunk to the existing Document's
chunk sequence — the document keeps the id, url and title it was created
with from the first record seen for that key, the later record's url and
title being discarded — every other key maps to an unchanged document, and
the key set is unchanged. -/
theorem merge_frame_effect (c : String) (m : List (String × Document))
    (r : Record) (d : Document) (k2 : String)
    (h : lookupDoc m (recordKey c r) = some d) (hk2 : k2 ≠ recordKey c r) :
    lookupDoc (processRecord c m r) (recordKey c r)
      = some { d with chunks := d.chunks ++ [chunkOfRecord r] }
    ∧ lookupDoc (processRecord c m r) k2 = lookupDoc m k2
    ∧ (processRecord c m r).map Prod.fst = m.map Prod.fst := by
  refine ⟨?_, ?_, ?_⟩
  · rw [lookupDoc_processRecord, if_pos rfl, h]
  · rw [lookupDoc_processRecord, if_neg hk2]
  · have hmem : (m.any (fun p => p.1 == recordKey c r)) = true := by
      unfold lookupDoc at h
      cases hf : m.find? (fun p => p.1 == recordKey c r) with
      | none =>
          rw [hf] at h
          cases h
      | some p =>
          have hp := List.mem_of_find?_eq_some hf
          have hpk := List.find?_some hf
          exact List.any_eq_true.mpr ⟨p, hp, hpk⟩
    rw [show processRecord c m r
        = m.map (appendChunk (recordKey c r) (chunkOfRecord r))
        from by simp [processRecord, hmem]]
    rw [List.map_map,
        show (Prod.fst ∘ appendChunk (recordKey c r) (chunkOfRecord r))
          = (Prod.fst : String × Document → String)
        from funext (appendChunk_fst _ _)]

theorem merge_frame_effect_witness :
    lookupDoc (processRecord "papers"
        [("papers:1", ⟨"papers:1", "u1", "t1", [⟨"c1", 3⟩]⟩)]
        ⟨"1", "c2", "t2", "u2", 5⟩)
        (recordKey "papers" ⟨"1", "c2", "t2", "u2", 5⟩)
      = some ⟨"papers:1", "u1", "t1", [⟨"c1", 3⟩, ⟨"c2", 5⟩]⟩
    ∧ lookupDoc (processRecord "papers"
        [("papers:1", ⟨"papers:1", "u1", "t1", [⟨"c1", 3⟩]⟩)]
        ⟨"1", "c2", "t2", "u2", 5⟩) "scratch:1"
      = lookupDoc [("papers:1", ⟨"papers:1", "u1", "t1", [⟨"c1", 3⟩]⟩)]
          "scratch:1"
    ∧ (processRecord "papers"
        [("papers:1", ⟨"papers:1", "u1", "t1", [⟨"c1", 3⟩]⟩)]
        ⟨"1", "c2", "t2", "u2", 5⟩).map Prod.fst
      = [("papers:1",
          (⟨"papers:1", "u1", "t1", [⟨"c1", 3⟩]⟩ : Document))].map Prod.fst :=
  merge_frame_effect "papers"
    [("papers:1", ⟨"papers:1", "u1", "t1", [⟨"c1", 3⟩]⟩)]
    ⟨"1", "c2", "t2", "u2", 5⟩ ⟨"papers:1", "u1", "t1", [⟨"c1", 3⟩]⟩
    "scratch:1" rfl (by decide)

/-- C1: two returned records with the same physical record identifier but
from different collections always produce two distinct Documents in the
result, with the composite ids `<collection>:<record_id>`; they are never
merged into one Document. -/
theorem distinct_ids_across_collections (env : StoreEnv) (cfg : String)
    (res : Option (List Resource)) (c1 c2 : String)
    (recs1 recs2 : List Record) (r1 r2 : Record)
    (hconn : env.connect_ok = true) (hembed : env.embed_ok = true)
    (hc1 : c1 ∈ resolveCollections cfg res)
    (hc2 : c2 ∈ resolveCollections cfg res) (hne : c1 ≠ c2)
    (hs1 : env.search c1 = some recs1) (hr1 : r1 ∈ recs1)
    (hs2 : env.search c2 = some recs2) (hr2 : r2 ∈ recs2)
    (hid : r1.id = r2.id) :
    ∃ d1 ∈ query_relevant_documents env cfg res,
    ∃ d2 ∈ query_relevant_documents env cfg res,
      d1.id = c1 ++ ":" ++ r1.id ∧ d2.id = c2 ++ ":" ++ r2.id ∧ d1 ≠ d2 := by
  have hq := query_eval env cfg res hconn hembed
  have hcoh := processCollections_coherent env.search
    (pySet (resolveCollections cfg res)) [] (by intro p hp; cases hp)
  obtain ⟨d1, hl1, hch1⟩ := processCollections_key_present env.search
    (pySet (resolveCollections cfg res)) [] c1 recs1 r1
    ((pySet_mem _ _).mpr hc1) hs1 hr1
  obtain ⟨d2, hl2, hch2⟩ := processCollections_key_present env.search
    (pySet (resolveCollections cfg res)) [] c2 recs2 r2
    ((pySet_mem _ _).mpr hc2) hs2 hr2
  have hid1 : d1.id = recordKey c1 r1 := lookupDoc_id _ _ _ hcoh hl1
  have hid2 : d2.id = recordKey c2 r2 := lookupDoc_id _ _ _ hcoh hl2
  refine ⟨d1, ?_, d2, ?_, hid1, hid2, ?_⟩
  · rw [hq]
    exact lookupDoc_mem _ _ _ hl1
  · rw [hq]
    exact lookupDoc_mem _ _ _ hl2
  · intro heq
    apply recordKey_ne_of_col_ne c1 c2 r1.id hne
    calc c1 ++ ":" ++ r1.id = d1.id := hid1.symm
      _ = d2.id := by rw [heq]
      _ = c2 ++ ":" ++ r2.id := hid2
      _ = c2 ++ ":" ++ r1.id := by rw [hid]

theorem distinct_ids_across_collections_witness :
    ∃ d1 ∈ query_relevant_documents
        ⟨true, true, fun col => if col = "alpha"
            then some [⟨"x", "ca", "ta", "ua", 1⟩]
            else if col = "beta" then some [⟨"x", "cb", "tb", "ub", 2⟩]
            else none, none⟩ "documents"
        (some [⟨"mongodb://db/alpha", "", ""⟩, ⟨"mongodb://db/beta", "", ""⟩]),
    ∃ d2 ∈ query_relevant_documents
        ⟨true, true, fun col => if col = "alpha"
            then some [⟨"x", "ca", "ta", "ua", 1⟩]
            else if col = "beta" then some [⟨"x", "cb", "tb", "ub", 2⟩]
            else none, none⟩ "documents"
        (some [⟨"mongodb://db/alpha", "", ""⟩, ⟨"mongodb://db/beta", "", ""⟩]),
      d1.id = "alpha" ++ ":" ++ "x" ∧ d2.id = "beta" ++ ":" ++ "x"
      ∧ d1 ≠ d2 :=
  distinct_ids_across_collections
    ⟨true, true, fun col => if col = "alpha"
        then some [⟨"x", "ca", "ta", "ua", 1⟩]
        else if col = "beta" then some [⟨"x", "cb", "tb", "ub", 2⟩]
        else none, none⟩ "documents"
    (some [⟨"mongodb://db/alpha", "", ""⟩, ⟨"mongodb://db/beta", "", ""⟩])
    "alpha" "beta" [⟨"x", "ca", "ta", "ua", 1⟩] [⟨"x", "cb", "tb", "ub", 2⟩]
    ⟨"x", "ca", "ta", "ua", 1⟩ ⟨"x", "cb", "tb", "ub", 2⟩
    rfl rfl (by decide) (by decide) (by decide) rfl (by decide) rfl
    (by decide) rfl

/-- C2: one failing collection in the fan-out never suppresses the others:
if collection `c` raises while `c'` returns records, every record of `c'`
still yields a Document in the result (under `c'`'s composite key, carrying
the record's chunk), and the call returns a non-empty sequence rather than
propagating or emptying out. -/
theorem failure_isolation (env : StoreEnv) (cfg : String)
    (res : Option (List Resource)) (c c' : String) (recs : List Record)
    (r : Record)
    (hconn : env.connect_ok = true) (hembed : env.embed_ok = true)
    (hc : c ∈ resolveCollections cfg res) (hfail : env.search c = none)
    (hc' : c' ∈ resolveCollections cfg res) (hs' : env.search c' = some recs)
    (hr : r ∈ recs) :
    (∃ d ∈ query_relevant_documents env cfg res,
      d.id = c' ++ ":" ++ r.id ∧ chunkOfRecord r ∈ d.chunks)
    ∧ query_relevant_documents env cfg res ≠ [] := by
  have hq := query_eval env cfg res hconn hembed
  have hcoh := processCollections_coherent env.search
    (pySet (resolveCollections cfg res)) [] (by intro p hp; cases hp)
  obtain ⟨d, hl, hch⟩ := processCollections_key_present env.search
    (pySet (resolveCollections cfg res)) [] c' recs r
    ((pySet_mem _ _).mpr hc') hs' hr
  have hdmem : d ∈ query_relevant_documents env cfg res := by
    rw [hq]
    exact lookupDoc_mem _ _ _ hl
  refine ⟨⟨d, hdmem, lookupDoc_id _ _ _ hcoh hl, hch⟩, ?_⟩
  intro hnil
  rw [hnil] at hdmem
  exact List.not_mem_nil d hdmem

theorem failure_isolation_witness :
    (∃ d ∈ query_relevant_documents
        ⟨true, true, fun col => if col = "good"
            then some [⟨"x", "c", "t", "u", 1⟩] else none, none⟩ "documents"
        (some [⟨"mongodb://db/good", "", ""⟩, ⟨"mongodb://db/bad", "", ""⟩]),
      d.id = "good" ++ ":" ++ "x"
      ∧ chunkOfRecord ⟨"x", "c", "t", "u", 1⟩ ∈ d.chunks)
    ∧ query_relevant_documents
        ⟨true, true, fun col => if col = "good"
            then some [⟨"x", "c", "t", "u", 1⟩] else none, none⟩ "documents"
        (some [⟨"mongodb://db/good", "", ""⟩, ⟨"mongodb://db/bad", "", ""⟩])
      ≠ [] :=
  failure_isolation
    ⟨true, true, fun col => if col = "good"
        then some [⟨"x", "c", "t", "u", 1⟩] else none, none⟩ "documents"
    (some [⟨"mongodb://db/good", "", ""⟩, ⟨"mongodb://db/bad", "", ""⟩])
    "bad" "good" [⟨"x", "c", "t", "u", 1⟩] ⟨"x", "c", "t", "u", 1⟩
    rfl rfl (by decide) rfl (by decide) rfl (by decide)

/-- C5: two records with identical (collection, record identifier) in the
same query's fan-out merge into a single Document under the composite key:
the result holds exactly one Document with that id, its chunk sequence has
length at least 2, and the chunks of the matching records occur in it in
encounter order. -/
theorem duplicate_records_merge (env : StoreEnv) (cfg : String)
    (res : Option (List Resource)) (c : String) (recs : List Record)
    (i j : Nat)
    (hconn : env.connect_ok = true) (hembed : env.embed_ok = true)
    (hc : c ∈ resolveCollections cfg res) (hs : env.search c = some recs)
    (hi : i < recs.length) (hj : j < recs.length) (hij : i ≠ j)
    (hid : (recs.get ⟨i, hi⟩).id = (recs.get ⟨j, hj⟩).id) :
    ∃ d ∈ query_relevant_documents env cfg res,
      (d.id = c ++ ":" ++ (recs.get ⟨i, hi⟩).id
      ∧ 2 ≤ d.chunks.length
      ∧ List.Sublist ((recs.filter (fun x =>
          recordKey c x == recordKey c (recs.get ⟨i, hi⟩))).map chunkOfRecord)
          d.chunks)
      ∧ ((query_relevant_documents env cfg res).filter
          (fun d' => d'.id == c ++ ":" ++ (recs.get ⟨i, hi⟩).id)).length
        = 1 := by
  have hq := query_eval env cfg res hconn hembed
  have hcoh := processCollections_coherent env.search
    (pySet (resolveCollections cfg res)) [] (by intro p hp; cases hp)
  have hnd := processCollections_keys_nodup env.search
    (pySet (resolveCollections cfg res)) [] (by simp)
  obtain ⟨l1, l2, hsplit⟩ := List.append_of_mem ((pySet_mem _ _).mpr hc)
  have hstep : processCollections env.search
        (pySet (resolveCollections cfg res)) []
      = processCollections env.search l2
          (recs.foldl (processRecord c)
            (processCollections env.search l1 [])) := by
    rw [hsplit]
    simp [processCollections, List.foldl_append, hs]
  have hmatch2 : 2 ≤ ((recs.filter (fun x =>
      recordKey c x == recordKey c (recs.get ⟨i, hi⟩))).map
        chunkOfRecord).length := by
    rw [List.length_map]
    apply two_le_length_filter recs _ i j hi hj hij
    · simp
    · show (recordKey c (recs.get ⟨j, hj⟩)
          == recordKey c (recs.get ⟨i, hi⟩)) = true
      simp only [beq_iff_eq, recordKey, hid]
  have base : ∃ d2 pre, lookupDoc (recs.foldl (processRecord c)
        (processCollections env.search l1 []))
        (recordKey c (recs.get ⟨i, hi⟩)) = some d2
      ∧ d2.chunks = pre ++ (recs.filter (fun x =>
          recordKey c x == recordKey c (recs.get ⟨i, hi⟩))).map
          chunkOfRecord := by
    rw [lookupDoc_foldl_records]
    cases hm : lookupDoc (processCollections env.search l1 [])
        (recordKey c (recs.get ⟨i, hi⟩)) with
    | some d0 => exact ⟨_, d0.chunks, rfl, rfl⟩
    | none =>
        cases hf : recs.find? (fun x =>
            recordKey c x == recordKey c (recs.get ⟨i, hi⟩)) with
        | none =>
            exfalso
            have hmm := List.find?_eq_none.mp hf (recs.get ⟨i, hi⟩)
              (List.get_mem recs i hi)
            simp at hmm
        | some r0 => exact ⟨_, [], rfl, rfl⟩
  obtain ⟨d2, pre, hd2, hpre⟩ := base
  obtain ⟨tail, htail⟩ := processCollections_grow env.search l2 _ _ _ hd2
  have hfinal : lookupDoc (processCollections env.search
        (pySet (resolveCollections cfg res)) [])
        (recordKey c (recs.get ⟨i, hi⟩))
      = some { d2 with chunks := d2.chunks ++ tail } := by
    rw [hstep]
    exact htail
  refine ⟨{ d2 with chunks := d2.chunks ++ tail },
    by rw [hq]; exact lookupDoc_mem _ _ _ hfinal, ⟨?_, ?_, ?_⟩, ?_⟩
  · exact lookupDoc_id _ _ _ hcoh hfinal
  · show 2 ≤ (d2.chunks ++ tail).length
    rw [hpre, List.length_append, List.length_append]
    omega
  · show List.Sublist _ (d2.chunks ++ tail)
    rw [hpre, List.append_assoc]
    exact (List.sublist_append_left _ tail).trans
      (List.sublist_append_right pre _)
  · rw [hq]
    exact result_key_count_one _ _ _ hnd hcoh hfinal

theorem duplicate_records_merge_witness :
    ∃ d ∈ query_relevant_documents
        ⟨true, true, fun col => if col = "documents"
            then some [⟨"x", "ca", "ta", "ua", 1⟩, ⟨"x", "cb", "tb", "ub", 2⟩]
            else none, none⟩ "documents" none,
      (d.id = "documents" ++ ":" ++ "x"
      ∧ 2 ≤ d.chunks.length
      ∧ List.Sublist ((([⟨"x", "ca", "ta", "ua", 1⟩,
          ⟨"x", "cb", "tb", "ub", 2⟩] : List Record).filter (fun x =>
          recordKey "documents" x
            == recordKey "documents" ⟨"x", "ca", "ta", "ua", 1⟩)).map
          chunkOfRecord) d.chunks)
      ∧ ((query_relevant_documents
          ⟨true, true, fun col => if col = "documents"
              then some [⟨"x", "ca", "ta", "ua", 1⟩,
                ⟨"x", "cb", "tb", "ub", 2⟩]
              else none, none⟩ "documents" none).filter
          (fun d' => d'.id == "documents" ++ ":" ++ "x")).length = 1 :=
  duplicate_records_merge
    ⟨true, true, fun col => if col = "documents"
        then some [⟨"x", "ca", "ta", "ua", 1⟩, ⟨"x", "cb", "tb", "ub", 2⟩]
        else none, none⟩ "documents" none "documents"
    [⟨"x", "ca", "ta", "ua", 1⟩, ⟨"x", "cb", "tb", "ub", 2⟩] 0 1
    rfl rfl (by decide) rfl (by decide) (by decide) (by decide) rfl

/-- C8: `list_resources` returns the Resource for a collection exactly when
the listing also contains its `<collection>_filemeta` companion and, when a
query string is given (truthy), it is a case-insensitive substring of the
collection name; concretely, over collections
`{"papers", "papers_filemeta", "scratch"}` and no query it returns exactly
the one Resource for `"papers"`. -/
theorem list_resources_filemeta_convention (env : StoreEnv) (db : String)
    (q : Option String) (cols : List String) (col : String)
    (rs : List Resource)
    (hc : env.connect_ok = true) (hl : env.collection_names = some cols)
    (hrs : list_resources env db q = Except.ok rs) :
    (mkResource db col ∈ rs
      ↔ (col ∈ cols ∧ (col ++ "_filemeta") ∈ cols
        ∧ (pyTruthy q = true →
            pyInStr ((q.getD "").toLower) col.toLower = true)))
    ∧ list_resources ⟨true, true, fun _ => none,
        some ["papers", "papers_filemeta", "scratch"]⟩ "deep_flow" none
      = Except.ok [mkResource "deep_flow" "papers"] := by
  constructor
  · have hrs' : rs = (cols.filter
        (fun c0 => (c0 ++ "_filemeta") ∈ cols)).foldl (listStep db q) [] := by
      unfold list_resources at hrs
      rw [if_neg (by simp [hc]), hl] at hrs
      simpa using hrs.symm
    subst hrs'
    rw [listStep_foldl]
    simp only [List.nil_append]
    constructor
    · intro hmem
      obtain ⟨a, ha, heq⟩ := List.mem_map.mp hmem
      have haeq : a = col := congrArg Resource.title heq
      subst haeq
      have h1 := List.mem_filter.mp ha
      have h2 := List.mem_filter.mp h1.1
      refine ⟨h2.1, by simpa using h2.2, ?_⟩
      intro hqt
      cases hin : pyInStr ((q.getD "").toLower) a.toLower
      · exfalso
        have h3 := h1.2
        simp [hqt, hin] at h3
      · rfl
    · rintro ⟨h1, h2, h3⟩
      apply List.mem_map.mpr
      refine ⟨col, ?_, rfl⟩
      apply List.mem_filter.mpr
      refine ⟨List.mem_filter.mpr ⟨h1, by simpa using h2⟩, ?_⟩
      cases hqt : pyTruthy q
      · simp [hqt]
      · simp [hqt, h3 hqt]
  · rfl

theorem list_resources_filemeta_convention_witness :
    (mkResource "deep_flow" "papers" ∈ [mkResource "deep_flow" "papers"]
      ↔ ("papers" ∈ ["papers", "papers_filemeta", "scratch"]
        ∧ ("papers" ++ "_filemeta") ∈ ["papers", "papers_filemeta", "scratch"]
        ∧ (pyTruthy none = true →
            pyInStr (((none : Option String).getD "").toLower)
              ("papers" : String).toLower = true)))
    ∧ list_resources ⟨true, true, fun _ => none,
        some ["papers", "papers_filemeta", "scratch"]⟩ "deep_flow" none
      = Except.ok [mkResource "deep_flow" "papers"] :=
  list_resources_filemeta_convention
    ⟨true, true, fun _ => none, some ["papers", "papers_filemeta", "scratch"]⟩
    "deep_flow" none ["papers", "papers_filemeta", "scratch"] "papers"
    [mkResource "deep_flow" "papers"] rfl rfl rfl

theorem connect_not_atomic_witness :
    (⟨true, 1⟩ : ConnState).clientSet = true
    ∧ (((connectCall false ⟨false, 0⟩).1.clientSet = true
        ∧ (connectCall false ⟨false, 0⟩).2 = true)
      ∧ connectCall true ⟨true, 1⟩ = (⟨true, 1⟩, false)
      ∧ (connectRuns [false, true, false] ⟨false, 0⟩).pings ≤ 1) :=
  ⟨rfl, connect_not_atomic true ⟨true, 1⟩ [false, true, false] rfl⟩

end DeepFlow
